import Mathlib

/-!
Verification development for the LimeNDAX NDAX decoder
(`src/NDAX_decoder/ndax_basic.py` and `src/NDAX_decoder/ndax_functions.py`).

The Python code computes with 64-bit floats whose values here are always
exact decimal/rational results of integer scalings, so numeric cells are
modelled as exact rationals.  To keep every definition kernel-executable
(`decide` must be able to run the embedded decoder on concrete byte
strings), rationals are represented as unreduced `Int` fractions (`PyRat`)
with the usual field operations; `PyRat.toRat` interprets them in `ℚ`.
All list/column operations mirror the pandas expressions of the source,
including pandas quirks that matter (NaN comparison semantics, `shift`,
`where`, `ffill`, elementwise comparison of an integer column with a
string scalar).
-/

/-- Exact rational value of one Python float cell: an unreduced fraction
`num / den`.  All values produced by the embedded code keep `den > 0`. -/
structure PyRat where
  num : Int
  den : Int
deriving DecidableEq

/-- Interpretation of a `PyRat` in Mathlib's rationals. -/
def PyRat.toRat (a : PyRat) : ℚ := (a.num : ℚ) / (a.den : ℚ)

def PyRat.add (a b : PyRat) : PyRat := ⟨a.num * b.den + b.num * a.den, a.den * b.den⟩

def PyRat.sub (a b : PyRat) : PyRat := ⟨a.num * b.den - b.num * a.den, a.den * b.den⟩

def PyRat.mul (a b : PyRat) : PyRat := ⟨a.num * b.num, a.den * b.den⟩

/-- Division; the sign is normalised into the numerator so that the
denominator stays positive on well-formed inputs. -/
def PyRat.div (a b : PyRat) : PyRat :=
  if b.num < 0 then ⟨-(a.num * b.den), a.den * -b.num⟩ else ⟨a.num * b.den, a.den * b.num⟩

def PyRat.neg (a : PyRat) : PyRat := ⟨-a.num, a.den⟩

def PyRat.babs (a : PyRat) : PyRat := ⟨|a.num|, |a.den|⟩

/-- Numeric equality test (Python `==` on floats), as opposed to the
structural equality of the representation. -/
def PyRat.beq (a b : PyRat) : Bool := a.num * b.den == b.num * a.den

/-- Numeric `<=` test; correct whenever both denominators are positive,
which holds for every value the embedded code builds. -/
def PyRat.ble (a b : PyRat) : Bool := decide (a.num * b.den ≤ b.num * a.den)

/-- Numeric `<` test (same proviso as `PyRat.ble`). -/
def PyRat.blt (a b : PyRat) : Bool := decide (a.num * b.den < b.num * a.den)

instance : Add PyRat := ⟨PyRat.add⟩

instance : Sub PyRat := ⟨PyRat.sub⟩

instance : Mul PyRat := ⟨PyRat.mul⟩

instance : Div PyRat := ⟨PyRat.div⟩

instance : Neg PyRat := ⟨PyRat.neg⟩

instance : OfNat PyRat n := ⟨⟨(n : Int), 1⟩⟩

/-- Embed an integer as a `PyRat`. -/
def PyRat.ofInt (i : Int) : PyRat := ⟨i, 1⟩

/-- Row of the decoded series, with the canonical columns
`Index, Cycle, Step, Status, Time, Voltage, Current(A), Capacity(Ah),
Energy(Wh), Timestamp, Validated` (`ndax_basic.rec_columns`).  `timestamp`
holds seconds since the Unix epoch; differences of Python `datetime`
values in `validate_timegap` (`.dt.total_seconds()`) coincide with
differences of this field. -/
structure Row where
  index : Int
  cycle : Int
  step : Int
  status : String
  time : PyRat
  voltage : PyRat
  current : PyRat
  capacity : PyRat
  energy : PyRat
  timestamp : PyRat
  validated : Bool
deriving DecidableEq

/-- Default row used with `List.getD` (bounds in the theorems make the
default irrelevant). -/
def row0 : Row := ⟨0, 0, 0, "", 0, 0, 0, 0, 0, 0, true⟩

/-- The status-code table `state_dict` of `ndax_basic.py`; a code absent
from the table raises `KeyError` in Python, modelled by `none`. -/
def state_dict (code : Nat) : Option String :=
  match code with
  | 1 => some "CC_Chg"
  | 2 => some "CC_Dchg"
  | 3 => some "CV_Chg"
  | 4 => some "Rest"
  | 5 => some "Cycle"
  | 7 => some "CCCV_Chg"
  | 8 => some "CP_Dchg"
  | 9 => some "CP_Chg"
  | 10 => some "CR_Dchg"
  | 13 => some "Pause"
  | 16 => some "Pulse"
  | 17 => some "SIM"
  | 19 => some "CV_Dchg"
  | 20 => some "CCCV_Dchg"
  | 21 => some "Control"
  | 26 => some "CPCV_Dchg"
  | 27 => some "CPCV_Chg"
  | _ => none

/-- The range-to-multiplier table `multiplier_dict` of
`ndax_basic.byte_to_list`; a range absent from the table raises `KeyError`
in Python, modelled by `none`. -/
def multiplier_dict (range_val : Int) : Option PyRat :=
  match range_val with
  | -300000 => some (1 / 100)
  | -200000 => some (1 / 100)
  | -100000 => some (1 / 100)
  | -60000 => some (1 / 100)
  | -30000 => some (1 / 100)
  | -50000 => some (1 / 100)
  | -20000 => some (1 / 100)
  | -12000 => some (1 / 100)
  | -10000 => some (1 / 100)
  | -6000 => some (1 / 100)
  | -5000 => some (1 / 100)
  | -3000 => some (1 / 100)
  | -2000 => some (1 / 100)
  | -1000 => some (1 / 100)
  | -500 => some (1 / 1000)
  | -100 => some (1 / 1000)
  | -50 => some (1 / 10000)
  | -25 => some (1 / 10000)
  | -1 => some (1 / 100000)
  | 0 => some 0
  | 10 => some (1 / 1000)
  | 100 => some (1 / 100)
  | 112 => some (1 / 100)
  | 200 => some (1 / 100)
  | 1000 => some (1 / 10)
  | 6000 => some (1 / 10)
  | 10000 => some (1 / 10)
  | 12000 => some (1 / 10)
  | 50000 => some (1 / 10)
  | 60000 => some (1 / 10)
  | 100000 => some (1 / 10)
  | _ => none

/-- The per-record validity pre-check `ndax_basic.single_validator`:
`list[0] < 1 or list[1] < 1 or list[2] < 1 or list[5] < 1.5` on the
freshly built record (positions 0, 1, 2, 5 are Index, Cycle, Step,
Voltage).  It returns a Bool; `byte_to_list` stores it as the row's
`Validated` flag. -/
def single_validator (r : Row) : Bool :=
  if r.index < 1 ∨ r.cycle < 1 ∨ r.step < 1 ∨ (r.voltage.blt (3 / 2)) = true then false
  else true

/-- Little-endian unsigned read of `len` bytes at offset `off`
(`struct.unpack` with formats `B`, `H`, `I`, `Q`). -/
def readLE (bs : List Nat) (off len : Nat) : Nat :=
  match len with
  | 0 => 0
  | l + 1 => bs.getD off 0 + 256 * readLE bs (off + 1) l

/-- Two's-complement reinterpretation of a `bytes`-wide little-endian
unsigned value (`struct.unpack` with formats `i`, `q`). -/
def toSigned (bytes : Nat) (n : Nat) : Int :=
  if n < 2 ^ (8 * bytes - 1) then (n : Int) else (n : Int) - 2 ^ (8 * bytes)

/-- Number of days of a month, as Python `datetime` validates it. -/
def days_in_month (y m : Nat) : Nat :=
  if m = 2 then
    if y % 4 = 0 ∧ (y % 100 ≠ 0 ∨ y % 400 = 0) then 29 else 28
  else if m = 4 ∨ m = 6 ∨ m = 9 ∨ m = 11 then 30
  else 31

/-- Validity of the packed date/time field: Python
`datetime(Y, M, D, h, m, s)` raises `ValueError` outside these ranges. -/
def datetime_ok (y mo d h mi s : Nat) : Bool :=
  decide (1 ≤ y ∧ y ≤ 9999 ∧ 1 ≤ mo ∧ mo ≤ 12 ∧ 1 ≤ d ∧ d ≤ days_in_month y mo ∧
    h < 24 ∧ mi < 60 ∧ s < 60)

/-- Days since the Unix epoch of a civil date (standard civil-from-days
computation; all intermediate quantities are non-negative for years
1..9999, so truncated `Int` division agrees with floor division). -/
def days_from_civil (y mo d : Nat) : Int :=
  let yy : Int := if mo ≤ 2 then (y : Int) - 1 else (y : Int)
  let era : Int := yy / 400
  let yoe : Int := yy - era * 400
  let mp : Int := if mo > 2 then (mo : Int) - 3 else (mo : Int) + 9
  let doy : Int := (153 * mp + 2) / 5 + (d : Int) - 1
  let doe : Int := yoe * 365 + yoe / 4 - yoe / 100 + doy
  era * 146097 + doe - 719468

/-- Seconds since the Unix epoch of a `datetime(Y, M, D, h, m, s)` value;
only differences of this quantity are ever used (`total_seconds`). -/
def datetime_sec (y mo d h mi s : Nat) : Int :=
  days_from_civil y mo d * 86400 + (h : Int) * 3600 + (mi : Int) * 60 + (s : Int)

/-- The single-stream record decoder `ndax_basic.byte_to_list`: fixed
little-endian field extraction, the status lookup through `state_dict`,
the range lookup through `multiplier_dict`, the documented scalings, and
the `single_validator` flag appended as `Validated`.  `none` models the
`KeyError`/`ValueError` the Python code raises on an unknown status code,
an unknown range, or an invalid packed date. -/
def byte_to_list (bs : List Nat) : Option Row :=
  let idx := readLE bs 8 4
  let cyc := readLE bs 12 4
  let step := readLE bs 16 1
  let statusCode := readLE bs 17 1
  let time := readLE bs 23 8
  let volt := toSigned 4 (readLE bs 31 4)
  let curr := toSigned 4 (readLE bs 35 4)
  let chgCap := toSigned 8 (readLE bs 43 8)
  let dchgCap := toSigned 8 (readLE bs 51 8)
  let chgEng := toSigned 8 (readLE bs 59 8)
  let dchgEng := toSigned 8 (readLE bs 67 8)
  let y := readLE bs 75 2
  let mo := readLE bs 77 1
  let d := readLE bs 78 1
  let h := readLE bs 79 1
  let mi := readLE bs 80 1
  let s := readLE bs 81 1
  let range_val := toSigned 4 (readLE bs 82 4)
  match state_dict statusCode, multiplier_dict range_val with
  | some statusName, some multiplier =>
    if datetime_ok y mo d h mi s then
      let r : Row :=
        { index := (idx : Int)
          cycle := (cyc : Int) + 1
          step := (step : Int)
          status := statusName
          time := PyRat.ofInt time / 1000
          voltage := PyRat.ofInt volt / 10000
          current := PyRat.ofInt curr * multiplier / 1000
          capacity := (PyRat.ofInt (chgCap - dchgCap)).babs * multiplier / 3600000
          energy := (PyRat.ofInt (chgEng - dchgEng)).babs * multiplier / 3600000
          timestamp := PyRat.ofInt (datetime_sec y mo d h mi s)
          validated := true }
      some { r with validated := single_validator r }
    else none
  | _, _ => none

/-- Record validity test `ndax_functions.valid_rec`: the status byte is
neither 0 nor 255. -/
def valid_rec (bs : List Nat) : Bool :=
  readLE bs 17 1 != 0 && readLE bs 17 1 != 255

/-- Record-collection loop of the single-stream branch of
`ndax_functions.to_df`: a candidate record whose marker byte (at offset
`rec_byte`, 0 for the 94-byte layout, 7 for the 90-byte layout) is `0x55`
and which passes `valid_rec` is decoded by `byte_to_list` and appended;
any other marker is logged as a warning and skipped.  `none` propagates a
decode exception from `byte_to_list`. -/
def decode_output (rec_byte : Nat) : List (List Nat) → Option (List Row)
  | [] => some []
  | bs :: rest =>
    if bs.getD rec_byte 0 = 0x55 then
      if valid_rec bs then
        match byte_to_list bs, decode_output rec_byte rest with
        | some r, some rs => some (r :: rs)
        | _, _ => none
      else decode_output rec_byte rest
    else decode_output rec_byte rest

/-- Pandas `drop_duplicates(subset="Index")`: keep the first row of each
`Index` value. -/
def drop_dup_index (df : List Row) : List Row :=
  go [] df
where
  go (seen : List Int) : List Row → List Row
    | [] => []
    | r :: rs => if r.index ∈ seen then go seen rs else r :: go (r.index :: seen) rs

/-- Pandas `Series.is_monotonic_increasing` (non-strict). -/
def is_monotonic_increasing : List Int → Bool
  | [] => true
  | [_] => true
  | a :: b :: rest => a ≤ b && is_monotonic_increasing (b :: rest)

/-- Insert into a list sorted by `Index`. -/
def insert_by_index (r : Row) : List Row → List Row
  | [] => [r]
  | x :: xs => if r.index ≤ x.index then r :: x :: xs else x :: insert_by_index r xs

/-- Pandas `sort_values("Index")`; applied by `to_df` only when the index
column is not already monotonic.  After `drop_duplicates` the keys are
distinct, so any sort by `Index` yields the same list. -/
def sort_by_index : List Row → List Row
  | [] => []
  | r :: rs => insert_by_index r (sort_by_index rs)

/-- The row condition of `ndax_basic.validate_timegap` against the
previous row `p`:
`(abs(prev_tis - prev_tstamp) > 5) & ((Step == prev_step) & (Time != 0))`
where `prev_tis`/`prev_tstamp` are the consecutive differences of `Time`
and of `Timestamp` (in seconds). -/
def tg_cond (p r : Row) : Bool :=
  ((r.time - p.time) - (r.timestamp - p.timestamp)).babs.blt 5 = false &&
    !(((r.time - p.time) - (r.timestamp - p.timestamp)).babs.beq 5) &&
    r.step == p.step && !(r.time.beq 0)

/-- The timestamp-continuity pre-pass `ndax_basic.validate_timegap`: on
every row whose condition `tg_cond` holds against its predecessor the
code runs `df.loc[cond, "Validated"] = True`; the first row has NaN
shifted values, so its condition is false and it is untouched.  The
helper columns `prev_step`/`prev_tis`/`prev_tstamp` are added and then
dropped by the source, leaving the column set unchanged. -/
def validate_timegap (df : List Row) : List Row :=
  match df with
  | [] => []
  | r :: rs => r :: go r rs
where
  go (p : Row) : List Row → List Row
    | [] => []
    | r :: rs => (if tg_cond p r then { r with validated := true } else r) :: go r rs

/-- The transform `ndax_basic.count_changes`: `a = series.diff();
a.iloc[0] = 1; return (abs(a) > 0).cumsum()`.  On an empty series the
`iloc[0]` assignment raises `IndexError`, modelled by `none`. -/
def count_changes (l : List Int) : Option (List Int) :=
  match l with
  | [] => none
  | x :: xs => some (go 1 x xs)
where
  go (acc : Int) (p : Int) : List Int → List Int
    | [] => [acc]
    | y :: ys => acc :: go (acc + if y ≠ p then 1 else 0) y ys

/-- The derived-DCIR computation of `ndax_functions.to_df` (also repeated
in `get_records`, `get_step` and `get_cycle`): the column is initialised
to `-1.0` and overwritten with
`abs((Voltage - prev_vol) / (Current - prev_cur)) * 1000000` exactly on
the rows where `prev_cur == 0` and `Current != 0`; the first row has NaN
shifted values, so its mask is false. -/
def dcir_column (df : List Row) : List PyRat :=
  match df with
  | [] => []
  | r :: rs => -1 :: go r rs
where
  go (p : Row) : List Row → List PyRat
    | [] => []
    | r :: rs =>
      (if p.current.beq 0 && !(r.current.beq 0) then
        ((r.voltage - p.voltage) / (r.current - p.current)).babs * 1000000
      else -1) :: go r rs

/-- The single-stream branch of `ndax_functions.to_df` downstream of the
byte scan: collect the `0x55` records (`decode_output`), `dropna` (a
no-op: every built row is total), `drop_duplicates(subset="Index")`, sort
by `Index` when not already monotonic, `validate_timegap`, replace `Step`
by `count_changes`, and derive the `DCIR(mOhm)` column.  The `include_aux`
and `step_cyclic_id` options (temperature join, extra copy of the raw
step column) are orthogonal to the claims and not modelled.  Returns the
row sequence together with the `DCIR(mOhm)` column. -/
def to_df_rows (rec_byte : Nat) (recs : List (List Nat)) : Option (List Row) :=
  match decode_output rec_byte recs with
  | none => none
  | some out =>
    let d1 := drop_dup_index out
    let d2 := if is_monotonic_increasing (d1.map (·.index)) then d1 else sort_by_index d1
    let d3 := validate_timegap d2
    match count_changes (d3.map (·.step)) with
    | none => none
    | some cc => some (List.zipWith (fun r s => { r with step := s }) d3 cc)

/-- The full single-stream result: the row sequence of `to_df_rows`
paired with its derived `DCIR(mOhm)` column. -/
def to_df_single (rec_byte : Nat) (recs : List (List Nat)) :
    Option (List Row × List PyRat) :=
  match to_df_rows rec_byte recs with
  | none => none
  | some d4 => some (d4, dcir_column d4)

/-- Pandas elementwise comparison of an integer series with a string
scalar: `df["Step"] == "Rest"` where the `Step` column holds integers is
elementwise `False` for every row (an `int` never equals a `str` in
Python). -/
def pandas_int_eq_str (_i : Int) (_s : String) : Bool := false

/-- The rest-consistency assignment shared by `ndax_basic.validator_fab`
(lines 351-354) and `ndax_basic.main_validator` (lines 409-412):
`df.loc[(df["Step"] == "Rest") & (df["Current(A)"] == 0) & (df["Time"] != 0),
"Validated"] = False`.  Note the source reads the integer `Step` column,
not `Status`, and tests `Current(A) == 0`, not `!= 0`. -/
def rest_rule (df : List Row) : List Row :=
  df.map fun r =>
    if pandas_int_eq_str r.step "Rest" && r.current.beq 0 && !(r.time.beq 0) then
      { r with validated := false }
    else r

/-- The basic validation profile `ndax_basic.validator_fab`, returned as
the mutated dataframe together with the Python return value: `some false`
for each explicit `return False`, and `none` for the fall-through path at
the end of the function body (Python returns `None` there: the function
has no `return True`).  The checks, in source order: the timegap pre-pass,
`False in df.Validated.values`, the rest-rule assignment, `Index` min 1
and monotonic, `Cycle` min 1, `Step` min 1 and monotonic.  On an empty
frame `min()` is NaN and `NaN != 1` holds, matching the `none` minimum
case. -/
def validator_fab (df : List Row) : List Row × Option Bool :=
  let d1 := validate_timegap df
  if d1.any fun r => r.validated = false then (d1, some false)
  else
    let d2 := rest_rule d1
    if (d2.map (·.index)).min? ≠ some 1 ∨
        is_monotonic_increasing (d2.map (·.index)) = false then (d2, some false)
    else if (d2.map (·.cycle)).min? ≠ some 1 then (d2, some false)
    else if (d2.map (·.step)).min? ≠ some 1 ∨
        is_monotonic_increasing (d2.map (·.step)) = false then (d2, some false)
    else (d2, none)

/-- The dataframe state left by the full profile
`ndax_basic.main_validator`: identical to `validator_fab`'s (the timegap
pre-pass then the rest-rule assignment); every later statement of
`main_validator` (voltage/energy/capacity/current ceilings, metadata
checks) only reads the frame. -/
def main_validator_df (df : List Row) : List Row :=
  rest_rule (validate_timegap df)

/-- One row of the per-cycle protocol signature frame `df_recipe` built by
`ndax_functions.get_recipe` (columns after dropping `Cycle` and `Step`):
`Status`, `Voltage`, `Current(A)`, `Rest_time`, `Cutoff_current`,
`Cutoff_voltage`. -/
structure StepSig where
  status : String
  voltage : PyRat
  current : PyRat
  rest_time : PyRat
  cutoff_current : PyRat
  cutoff_voltage : PyRat
deriving DecidableEq

/-- Closeness test of one pair of signature rows used by the loop of
`ndax_basic.df_diff`: each of the four differences of absolute values
(`abs(df1[c]) - abs(df2[c])`) has absolute value at most 0.05. -/
def sig_close (a b : StepSig) : Bool :=
  (a.voltage.babs - b.voltage.babs).babs.ble (1 / 20) &&
    (a.current.babs - b.current.babs).babs.ble (1 / 20) &&
    (a.cutoff_current.babs - b.cutoff_current.babs).babs.ble (1 / 20) &&
    (a.cutoff_voltage.babs - b.cutoff_voltage.babs).babs.ble (1 / 20)

/-- The pairwise recipe matcher `ndax_basic.df_diff`: `-1` when the
`Status` lists differ, `-1` when the `Rest_time` lists differ, `-1` when
any of the interleaved `Voltage`/`Current(A)`/`Cutoff_current`/
`Cutoff_voltage` differences of absolute values exceeds 0.05 in absolute
value, and `1` otherwise.  (The source computes the difference series
first, but its first possible return is the `Status` comparison.) -/
def df_diff (d1 d2 : List StepSig) : Int :=
  if d1.map (·.status) ≠ d2.map (·.status) then -1
  else if (List.zipWith (fun a b => a.rest_time.beq b.rest_time) d1 d2).all (· = true) = false
    then -1
  else if (List.zipWith sig_close d1 d2).all (· = true) then 1 else -1

/-- The cycle-pair test of `ndax_functions.get_recipe`: equal frame
shapes and `df_diff == 1`.  `Rest_time` equality in `df_diff` is pandas
float equality on the column values, modelled by `PyRat.beq` per
position (with equal lengths forced by the status comparison). -/
def sig_match (d1 d2 : List StepSig) : Bool :=
  decide (d1.length = d2.length) && df_diff d1 d2 == 1

/-- Sorted deduplication (ascending) of a list of naturals, as
`sorted(list(set(...)))` produces. -/
def sorted_dedup (l : List Nat) : List Nat :=
  go (l.foldl (fun acc x => if x ∈ acc then acc else x :: acc) [])
where
  ins (x : Nat) : List Nat → List Nat
    | [] => [x]
    | y :: ys => if x ≤ y then x :: y :: ys else y :: ins x ys
  go : List Nat → List Nat
    | [] => []
    | x :: xs => ins x (go xs)

/-- Association-list lookup for the `dict_consecutive` map. -/
def alist_get (k : Nat) : List (Nat × Nat) → Option Nat
  | [] => none
  | (a, b) :: rest => if a = k then some b else alist_get k rest

/-- Association-list deletion (`del dict_consecutive[j]`). -/
def alist_del (k : Nat) : List (Nat × Nat) → List (Nat × Nat)
  | [] => []
  | (a, b) :: rest => if a = k then alist_del k rest else (a, b) :: alist_del k rest

/-- Signature of cycle `c` (1-based) out of the per-cycle signature list. -/
def sig_of (sigs : List (List StepSig)) (c : Nat) : List StepSig :=
  sigs.getD (c - 1) []

/-- The boundary list `recipe_unmatch` of `ndax_functions.get_recipe`
over the cycles `1..sigs.length` that get a signature: it starts with the
literal `1`, adds `i+1` for every consecutive pair `(i, i+1)` that fails
`sig_match`, appends the maximal signature cycle, and is sorted and
deduplicated. -/
def recipe_unmatch (sigs : List (List StepSig)) : List Nat :=
  let n := sigs.length
  let mids := (List.range (n - 1)).filterMap fun i =>
    if sig_match (sig_of sigs (i + 1)) (sig_of sigs (i + 2)) then none else some (i + 2)
  sorted_dedup ((1 :: mids) ++ [n])

/-- The `dict` map of `ndax_functions.get_recipe`: each boundary cycle
except the last is mapped to the later boundary cycles whose signature
frame has the same shape and matches by `df_diff`. -/
def recipe_match_map (sigs : List (List StepSig)) : List (Nat × List Nat) :=
  let u := recipe_unmatch sigs
  (List.range (u.length - 1)).map fun i =>
    (u.getD i 0,
      ((List.range (u.length - (i + 1))).map fun k => u.getD (i + 1 + k) 0).filter fun j =>
        sig_match (sig_of sigs (u.getD i 0)) (sig_of sigs j))

/-- The `dict_temp` construction of `ndax_functions.get_recipe`: walk the
match map in order; a key still present in `dict_consecutive` opens a
group holding its own consecutive range plus the ranges of its matching
boundary cycles that are still present, each of which is deleted from
`dict_consecutive` as it is claimed. -/
def recipe_groups_go (entries : List (Nat × List Nat)) (cons : List (Nat × Nat)) :
    List (Nat × List (Nat × Nat)) :=
  match entries with
  | [] => []
  | (k, js) :: rest =>
    match alist_get k cons with
    | none => recipe_groups_go rest cons
    | some nk =>
      let step := js.foldl (fun (st : List (Nat × Nat) × List (Nat × Nat)) j =>
        match alist_get j st.2 with
        | some nj => (st.1 ++ [(j, nj - 1)], alist_del j st.2)
        | none => st) ([(k, nk - 1)], cons)
      (k, step.1) :: recipe_groups_go rest step.2

/-- The recipe grouping of `ndax_functions.get_recipe`, from the
per-cycle signature list (cycles `1..sigs.length`; `get_recipe` builds a
signature for every cycle of the frame except the last): a list of
groups, each a list of inclusive cycle ranges. -/
def recipe_groups (sigs : List (List StepSig)) : List (Nat × List (Nat × Nat)) :=
  let u := recipe_unmatch sigs
  recipe_groups_go (recipe_match_map sigs) (u.zip u.tail)

/-- Whether the grouping places cycles `c1` and `c2` in one recipe: some
group has ranges covering both. -/
def same_recipe (sigs : List (List StepSig)) (c1 c2 : Nat) : Bool :=
  (recipe_groups sigs).any fun g =>
    (g.2.any fun ab => ab.1 ≤ c1 && c1 ≤ ab.2) &&
      (g.2.any fun ab => ab.1 ≤ c2 && c2 ≤ ab.2)

/-- Row of the merged three-stream frame that `ndax_functions.fabricate`
patches in place.  Fields that the run-info stream may omit (and any
field of a row pandas creates implicitly) are `Option`s, `none` playing
NaN/NaT. -/
structure FabRow where
  cycle : Option PyRat
  step : Option PyRat
  status : Option String
  time : Option PyRat
  voltage : Option PyRat
  current : Option PyRat
  capacity : Option PyRat
  energy : Option PyRat
  timestamp : Option PyRat
deriving DecidableEq

/-- Blank row (all NaN), as `df.loc[new_label, cols] = ...` creates. -/
def blank_fab : FabRow := ⟨none, none, none, none, none, none, none, none, none⟩

/-- NaN-propagating addition of two cells. -/
def oadd (a b : Option PyRat) : Option PyRat :=
  match a, b with
  | some x, some y => some (x + y)
  | _, _ => none

/-- NaN-propagating subtraction of two cells. -/
def osub (a b : Option PyRat) : Option PyRat :=
  match a, b with
  | some x, some y => some (x - y)
  | _, _ => none

/-- NaN-propagating multiplication of two cells. -/
def omul (a b : Option PyRat) : Option PyRat :=
  match a, b with
  | some x, some y => some (x * y)
  | _, _ => none

/-- Pandas `Series.diff()`: first element NaN, then consecutive
differences (NaN-propagating). -/
def diff_col : List (Option PyRat) → List (Option PyRat)
  | [] => []
  | x :: xs => none :: go x xs
where
  go (p : Option PyRat) : List (Option PyRat) → List (Option PyRat)
    | [] => []
    | y :: ys => osub y p :: go y ys

/-- Pandas `Series.shift()`: first element NaN, the rest moved down. -/
def shift_col (c : List (Option PyRat)) : List (Option PyRat) :=
  match c with
  | [] => []
  | _ => none :: c.dropLast

/-- Pandas `Series.ffill()`: propagate the last observed value forward. -/
def ffill_col (c : List (Option PyRat)) : List (Option PyRat) :=
  go none c
where
  go (last : Option PyRat) : List (Option PyRat) → List (Option PyRat)
    | [] => []
    | x :: xs =>
      match x with
      | some v => some v :: go (some v) xs
      | none => last :: go last xs

/-- Forward fill for the `Status` column. -/
def ffill_str (c : List (Option String)) : List (Option String) :=
  go none c
where
  go (last : Option String) : List (Option String) → List (Option String)
    | [] => []
    | x :: xs =>
      match x with
      | some v => some v :: go (some v) xs
      | none => last :: go last xs

/-- Pandas `Series.where(cond, other)` with aligned columns: keep the
cell where the condition holds, else take `other`. -/
def where_col : List (Option PyRat) → List Bool → List (Option PyRat) → List (Option PyRat)
  | [], _, _ => []
  | _ :: _, [], _ => []
  | _ :: _, _ :: _, [] => []
  | x :: xs, m :: ms, o :: os => (if m then x else o) :: where_col xs ms os

/-- Running count of `True`s (`mask.cumsum()` on a boolean series). -/
def cumsum_bool (mask : List Bool) : List Nat :=
  go 0 mask
where
  go (acc : Nat) : List Bool → List Nat
    | [] => []
    | b :: bs => (if b then acc + 1 else acc) :: go (if b then acc + 1 else acc) bs

/-- Pandas `series.groupby(keys).cumsum()`: a cumulative sum restarted on
every key change (the keys are cumulative counts, so equal keys are
contiguous), skipping NaN cells (a NaN cell yields NaN but does not
reset the accumulator) and yielding NaN on rows whose key is NaN (rows
outside every group). -/
def cumsum_by_key (keys : List (Option Nat)) (c : List (Option PyRat)) : List (Option PyRat) :=
  go none 0 keys c
where
  go (prev : Option Nat) (acc : PyRat) :
      List (Option Nat) → List (Option PyRat) → List (Option PyRat)
    | [], _ => []
    | _ :: _, [] => []
    | k :: ks, x :: xs =>
      match k with
      | none => none :: go prev acc ks xs
      | some kv =>
        let acc0 := if prev = some kv then acc else 0
        match x with
        | none => none :: go (some kv) acc0 ks xs
        | some v => some (acc0 + v) :: go (some kv) (acc0 + v) ks xs

/-- Sorted unique `Int` list (ascending), as `np.setdiff1d` returns. -/
def sorted_dedup_int (l : List Int) : List Int :=
  go (l.foldl (fun acc x => if x ∈ acc then acc else x :: acc) [])
where
  ins (x : Int) : List Int → List Int
    | [] => [x]
    | y :: ys => if x ≤ y then x :: y :: ys else y :: ins x ys
  go : List Int → List Int
    | [] => []
    | x :: xs => ins x (go xs)

/-- Numpy `setdiff1d(a, b)`: sorted unique values of `a` not in `b`. -/
def setdiff_int (a b : List Int) : List Int :=
  sorted_dedup_int (a.filter (· ∉ b))

/-- Positions (as pandas labels, which for the merged frame are
`0..n-1`) whose cell passes the test. -/
def col_positions (test : Option PyRat → Bool) (c : List (Option PyRat)) : List Int :=
  go 0 c
where
  go (i : Int) : List (Option PyRat) → List Int
    | [] => []
    | x :: xs => if test x then i :: go (i + 1) xs else go (i + 1) xs

/-- The list comprehension assignments of `fabricate` (lines 51-52):
positions in the given set receive the constant, the rest keep their
value. -/
def assign_positions (s : List Int) (v : PyRat) (c : List (Option PyRat)) : List (Option PyRat) :=
  go 0 c
where
  go (i : Int) : List (Option PyRat) → List (Option PyRat)
    | [] => []
    | x :: xs => (if i ∈ s then some v else x) :: go (i + 1) xs

/-- The modal inter-sample delta `trc.mode().values[0]` (line 39): the
most frequent value of the non-NaN diffs, ties resolved to the smallest
(pandas `mode` sorts ascending); `none` models the `IndexError` raised
when every diff is NaN. -/
def mode_col (c : List (Option PyRat)) : Option PyRat :=
  match c.filterMap id with
  | [] => none
  | v :: vs =>
    some (vs.foldl (fun best w =>
      let cb := (c.filterMap id).countP fun z => z.beq best
      let cw := (c.filterMap id).countP fun z => z.beq w
      if cb < cw ∨ (cb = cw ∧ w.blt best = true) then w else best) v)

/-- The modal time delta of a frame (`fabricate` line 38-39). -/
def fab_trd (df : List FabRow) : Option PyRat :=
  mode_col (diff_col (df.map (·.time)))

/-- `list1 = df[df["Time"] == 0.0].index.values` (line 40); a NaN never
equals 0. -/
def fab_list1 (df : List FabRow) : List Int :=
  col_positions (fun x => match x with | some v => v.beq 0 | none => false) (df.map (·.time))

/-- `list0 = df[df["Time"] == trd].index.values - 1` (line 41). -/
def fab_list0 (df : List FabRow) (trd : PyRat) : List Int :=
  (col_positions (fun x => match x with | some v => v.beq trd | none => false)
    (df.map (·.time))).map (· - 1)

/-- `s1 = np.setdiff1d(list0, list1)` (line 43). -/
def fab_s1 (df : List FabRow) (trd : PyRat) : List Int :=
  setdiff_int (fab_list0 df trd) (fab_list1 df)

/-- `s2 = np.setdiff1d(list1, list0) + 1` (line 44). -/
def fab_s2 (df : List FabRow) (trd : PyRat) : List Int :=
  (setdiff_int (fab_list1 df) (fab_list0 df trd)).map (· + 1)

/-- Attach pandas labels `0..n-1` to the frame rows. -/
def enum_rows (df : List FabRow) : List (Int × FabRow) :=
  go 0 df
where
  go (i : Int) : List FabRow → List (Int × FabRow)
    | [] => []
    | r :: rs => (i, r) :: go (i + 1) rs

/-- One iteration of the `for i in s1` loop (lines 45-49):
`df.loc[i, c] = df.loc[i + 1, c]` for `Cycle`, `Step`, `Status` (and
`Cycle` once more).  A `loc` write to an absent label appends a fresh
all-NaN row carrying that label (this happens when `s1` contains `-1`). -/
def loc_copy (rows : List (Int × FabRow)) (i : Int) : List (Int × FabRow) :=
  match (rows.find? (·.1 = i + 1)).map (·.2) with
  | none => rows
  | some src =>
    if rows.any (·.1 = i) then
      rows.map fun lr =>
        if lr.1 = i then
          (lr.1, { lr.2 with cycle := src.cycle, step := src.step, status := src.status })
        else lr
    else
      rows ++ [(i, { blank_fab with cycle := src.cycle, step := src.step, status := src.status })]

/-- Group-wise interior interpolation (line 54):
`df.groupby("Step")["Time"].transform(lambda x: interpolate(x, limit_area="inside"))`.
Observed cells are kept; a missing cell inside a group (rows with the
same `Step` value) is filled linearly between its nearest observed
neighbours within the group, distances measured in group positions
(`method="linear"` treats the values as equally spaced); a missing cell
with no observed neighbour on either side stays NaN, and a row whose
group key is NaN is outside every group, so the transform leaves NaN
there even if the cell was observed. -/
def interp_inside (steps : List (Option PyRat)) (times : List (Option PyRat)) :
    List (Option PyRat) :=
  (List.range times.length).map fun i =>
    match steps.getD i none with
    | none => none
    | some key =>
      match times.getD i none with
      | some v => some v
      | none =>
        let g := (List.range times.length).filter fun j =>
          match steps.getD j none with
          | some k2 => k2.beq key
          | none => false
        let p := g.indexOf i
        let lower := ((List.range p).filterMap fun r =>
          (times.getD (g.getD r 0) none).map fun v1 => (r, v1)).getLast?
        let upper := (((List.range (g.length - p - 1)).map fun k => p + 1 + k).filterMap fun r =>
          (times.getD (g.getD r 0) none).map fun v2 => (r, v2)).head?
        match lower, upper with
        | some (r1, v1), some (r2, v2) =>
          some (v1 + (v2 - v1) * ((PyRat.ofInt p - PyRat.ofInt r1) /
            (PyRat.ofInt r2 - PyRat.ofInt r1)))
        | _, _ => none

/-- Pandas default `Series.interpolate()` (line 86, `Cycle`): observed
cells kept, interior gaps filled linearly by position, trailing gaps
filled with the last observed value, leading gaps left NaN. -/
def interp_default (c : List (Option PyRat)) : List (Option PyRat) :=
  (List.range c.length).map fun i =>
    match c.getD i none with
    | some v => some v
    | none =>
      let lower := ((List.range i).filterMap fun r =>
        (c.getD r none).map fun v1 => (r, v1)).getLast?
      let upper := (((List.range (c.length - i - 1)).map fun k => i + 1 + k).filterMap fun r =>
        (c.getD r none).map fun v2 => (r, v2)).head?
      match lower, upper with
      | some (r1, v1), some (r2, v2) =>
        some (v1 + (v2 - v1) * ((PyRat.ofInt i - PyRat.ofInt r1) /
          (PyRat.ofInt r2 - PyRat.ofInt r1)))
      | some (_, v1), none => some v1
      | _, _ => none

/-- Stale-label boolean-mask lookup: `nan_value` (line 30) is indexed by
the original labels `0..n-1`; a `where` against it on a frame that
meanwhile gained a row aligns by label, and a label outside the mask
gives NaN, which `where` treats as `False`. -/
def stale_mask (m : List Bool) (labels : List Int) : List Bool :=
  labels.map fun l => if 0 ≤ l ∧ l.toNat < m.length then m.getD l.toNat false else false

/-- Stale-label group-key lookup (`nan_value.cumsum()` used as groupby
keys on lines 64 and 82): a label outside the original index yields a
NaN key. -/
def stale_keys (ks : List Nat) (labels : List Int) : List (Option Nat) :=
  labels.map fun l => if 0 ≤ l ∧ l.toNat < ks.length then some (ks.getD l.toNat 0) else none

/-- Write a time column back into the rows. -/
def set_time_col (rows : List FabRow) (c : List (Option PyRat)) : List FabRow :=
  List.zipWith (fun r t => { r with time := t }) rows c

/-- Write a timestamp column back into the rows. -/
def set_ts_col (rows : List FabRow) (c : List (Option PyRat)) : List FabRow :=
  List.zipWith (fun r t => { r with timestamp := t }) rows c

/-- Write a capacity column back into the rows. -/
def set_cap_col (rows : List FabRow) (c : List (Option PyRat)) : List FabRow :=
  List.zipWith (fun r t => { r with capacity := t }) rows c

/-- Write an energy column back into the rows. -/
def set_eng_col (rows : List FabRow) (c : List (Option PyRat)) : List FabRow :=
  List.zipWith (fun r t => { r with energy := t }) rows c

/-- Write a cycle column back into the rows. -/
def set_cycle_col (rows : List FabRow) (c : List (Option PyRat)) : List FabRow :=
  List.zipWith (fun r t => { r with cycle := t }) rows c

/-- Write a status column back into the rows. -/
def set_status_col (rows : List FabRow) (c : List (Option String)) : List FabRow :=
  List.zipWith (fun r t => { r with status := t }) rows c

/-- Mask test `df["Time"] != 0.0` (NaN compares unequal, so a NaN cell
passes). -/
def time_nonzero_test (t : Option PyRat) : Bool :=
  match t with
  | some v => !(v.beq 0)
  | none => true

/-- Mask test `df["Current(A)"] != 0` (NaN passes). -/
def cur_nonzero_test (t : Option PyRat) : Bool :=
  match t with
  | some v => !(v.beq 0)
  | none => true

/-- Mask test `df["Time"].diff() >= 0` (NaN fails). -/
def tdiff_ok_test (t : Option PyRat) : Bool :=
  match t with
  | some v => PyRat.ble 0 v
  | none => false

/-- Lines 51-61 of `fabricate`, acting on the current frame rows: the
positional `Time` reassignments over `s1`/`s2`, the group-wise interior
interpolation, and the forward extrapolation, written back into the
`Time` column. -/
def fab_time_pass (rows : List FabRow) (s1 s2 : List Int) (trd : PyRat) : List FabRow :=
  let times0 := rows.map (·.time)
  let times1 := assign_positions s2 trd (assign_positions s1 0 times0)
  let times2 := interp_inside (rows.map (·.step)) times1
  let nan_value2 := times2.map (·.isSome)
  let time_inc := cumsum_by_key ((cumsum_bool nan_value2).map some)
    (ffill_col (diff_col times2))
  let time_extra := List.zipWith oadd (ffill_col times2) (shift_col time_inc)
  set_time_col rows (where_col times2 nan_value2 time_extra)

/-- Lines 64-66 of `fabricate`: `Timestamp` reconstruction from the
cumulative time deltas, kept only where the stale `nan_value` mask is
false (i.e. observed timestamps are kept by `where`). -/
def fab_ts_pass (labels : List Int) (nv : List Bool) (rows : List FabRow) : List FabRow :=
  let ts_inc := cumsum_by_key (stale_keys (cumsum_bool nv) labels)
    (diff_col (rows.map (·.time)))
  let ts_new := List.zipWith oadd (ffill_col (rows.map (·.timestamp))) (shift_col ts_inc)
  set_ts_col rows (where_col (rows.map (·.timestamp)) (stale_mask nv labels) ts_new)

/-- Lines 69-78 of `fabricate`: the `Capacity` column is first zeroed
unconditionally wherever `Time == 0`, then the `|current| * dt / 3600`
increments are integrated from the last observed capacity into the cells
whose stale `nan_value` mask is false. -/
def fab_cap_pass (labels : List Int) (nv : List Bool) (rows : List FabRow) : List FabRow :=
  let times3 := rows.map (·.time)
  let caps0 := List.zipWith (fun cp m => if m then cp else some 0)
    (rows.map (·.capacity)) (times3.map time_nonzero_test)
  let tdiff := diff_col times3
  let tdiff2 := where_col tdiff (tdiff.map tdiff_ok_test) (shift_col tdiff)
  let cap_series := (List.zipWith omul tdiff2 (rows.map fun r => r.current.map PyRat.babs)).map
    fun o => o.map (· / 3600)
  let inc := cumsum_by_key ((cumsum_bool (caps0.map (·.isSome))).map some) cap_series
  let inc_masked := where_col inc (rows.map fun r => cur_nonzero_test r.current)
    (List.replicate inc.length (some 0))
  let cap_new := List.zipWith oadd (ffill_col caps0) (shift_col inc_masked)
  set_cap_col rows (where_col caps0 (stale_mask nv labels) cap_new)

/-- Lines 81-84 of `fabricate`: the `Energy` integration.  The local
increment series `capacity` of line 71 is recomputed here from the same
inputs (`Time`, `Current`), which the capacity pass does not alter. -/
def fab_eng_pass (labels : List Int) (nv : List Bool) (rows : List FabRow) : List FabRow :=
  let times3 := rows.map (·.time)
  let tdiff := diff_col times3
  let tdiff2 := where_col tdiff (tdiff.map tdiff_ok_test) (shift_col tdiff)
  let cap_series := (List.zipWith omul tdiff2 (rows.map fun r => r.current.map PyRat.babs)).map
    fun o => o.map (· / 3600)
  let eng_series := List.zipWith omul cap_series (rows.map (·.voltage))
  let inc_e := cumsum_by_key (stale_keys (cumsum_bool nv) labels) eng_series
  let inc_e_masked := where_col inc_e (rows.map fun r => cur_nonzero_test r.current)
    (List.replicate inc_e.length (some 0))
  let eng_new := List.zipWith oadd (ffill_col (rows.map (·.energy))) (shift_col inc_e_masked)
  set_eng_col rows (where_col (rows.map (·.energy)) (stale_mask nv labels) eng_new)

/-- Line 86 of `fabricate`: `Cycle` interpolation. -/
def fab_cycle_pass (rows : List FabRow) : List FabRow :=
  set_cycle_col rows (interp_default (rows.map (·.cycle)))

/-- Line 87 of `fabricate`: `Status` forward fill. -/
def fab_status_pass (rows : List FabRow) : List FabRow :=
  set_status_col rows (ffill_str (rows.map (·.status)))

/-- The column passes of `ndax_functions.fabricate` after the `s1` copy
loop (lines 51-88), over the current frame: `labels` are the pandas row
labels (the original `0..n-1`, plus a possible appended `-1`), `rows`
the frame rows in order, `nv` the stale `nan_value` mask of line 30
(indexed by the original labels), `s1`/`s2` the substituted-row position
sets, `trd` the modal time delta. -/
def fab_cols (labels : List Int) (rows : List FabRow) (nv : List Bool)
    (s1 s2 : List Int) (trd : PyRat) : List FabRow :=
  fab_status_pass (fab_cycle_pass (fab_eng_pass labels nv
    (fab_cap_pass labels nv (fab_ts_pass labels nv (fab_time_pass rows s1 s2 trd)))))

/-- The gap-filling pass `ndax_functions.fabricate`, line by line.  Input
is the merged three-stream frame (labels `0..n-1`); output is the frame
it leaves behind, or `none` for the `IndexError` of `trc.mode().values[0]`
when every consecutive time diff is NaN.  The initial `warnings.warn` has
no data effect.  Steps: modal delta `trd` (line 39); the substituted-row
sets `s1`/`s2` (lines 40-44) and the backward copy of
`Cycle`/`Step`/`Status` over `s1` (lines 45-49, with the pandas
behaviour that `df.loc[-1, ...]` appends a fresh row labelled `-1`);
then the column passes of `fab_cols`. -/
def fabricate (df : List FabRow) : Option (List FabRow) :=
  match fab_trd df with
  | none => none
  | some trd =>
    let labeled := (fab_s1 df trd).foldl loc_copy (enum_rows df)
    some (fab_cols (labeled.map (·.1)) (labeled.map (·.2)) (df.map (·.time.isSome))
      (fab_s1 df trd) (fab_s2 df trd) trd)

/-- Little-endian encoding helper used only to build concrete test
records (inverse of `readLE` on one field). -/
def encLE (w n : Nat) : List Nat :=
  match w with
  | 0 => []
  | w + 1 => (n % 256) :: encLE w (n / 256)

/-- Concrete 94-byte single-stream record with the given raw field
values, laid out at the offsets `byte_to_list` reads (marker `0x55` at
offset 0). -/
def mkRec (idx cyc step status time volt curr chgc dchc chge dche y mo d h mi s rng : Nat) :
    List Nat :=
  [0x55] ++ List.replicate 7 0 ++ encLE 4 idx ++ encLE 4 cyc ++ [step % 256] ++ [status % 256] ++
    List.replicate 5 0 ++ encLE 8 time ++ encLE 4 volt ++ encLE 4 curr ++ List.replicate 4 0 ++
    encLE 8 chgc ++ encLE 8 dchc ++ encLE 8 chge ++ encLE 8 dche ++ encLE 2 y ++
    [mo, d, h, mi, s] ++ encLE 4 rng ++ List.replicate 8 0

lemma cc_go_length (acc p : Int) (xs : List Int) :
    (count_changes.go acc p xs).length = xs.length + 1 := by
  induction xs generalizing acc p with
  | nil => simp [count_changes.go]
  | cons y ys ih => simp [count_changes.go, ih]

lemma cc_go_head (acc p : Int) (xs : List Int) :
    (count_changes.go acc p xs).getD 0 0 = acc := by
  cases xs <;> simp [count_changes.go]

lemma cc_go_step (acc p : Int) (xs : List Int) :
    ∀ i, i + 1 < xs.length + 1 →
      (count_changes.go acc p xs).getD (i + 1) 0 =
        (count_changes.go acc p xs).getD i 0 +
          (if xs.getD i 0 ≠ (p :: xs).getD i 0 then 1 else 0) := by
  induction xs generalizing acc p with
  | nil => intro i hi; simp at hi
  | cons y ys ih =>
    intro i hi
    cases i with
    | zero =>
      have h0 := cc_go_head (acc + if y ≠ p then 1 else 0) y ys
      simp only [count_changes.go, List.getD_cons_succ, List.getD_cons_zero]
      rw [h0]
    | succ k =>
      have hk : k + 1 < ys.length + 1 := by simpa using hi
      simpa [count_changes.go, List.getD_cons_succ] using ih (acc + if y ≠ p then 1 else 0) y k hk

lemma getD_mono_of_adjacent (l : List Int)
    (hstep : ∀ k, k + 1 < l.length → l.getD k 0 ≤ l.getD (k + 1) 0) :
    ∀ i j, i ≤ j → j < l.length → l.getD i 0 ≤ l.getD j 0 := by
  intro i j
  induction j with
  | zero =>
    intro hij _
    cases Nat.le_zero.mp hij
    exact le_refl _
  | succ k ih =>
    intro hij hj
    rcases Nat.eq_or_lt_of_le hij with h | h
    · rw [h]
    · exact le_trans (ih (Nat.lt_succ_iff.mp h) (Nat.lt_of_succ_lt hj)) (hstep k hj)

/-- Claim C8: on a non-empty raw step-id sequence, the count-changes
transform (`ndax_basic.count_changes`, applied to `Step` in
`ndax_functions.to_df` and `data_runInfo_ndc`) yields a sequence that
starts at 1, steps by exactly 1 where the raw value changes, stays
constant where it does not, and is non-decreasing throughout. -/
theorem count_changes_spec (x : Int) (xs : List Int) (r : List Int)
    (h : count_changes (x :: xs) = some r) :
    r.length = (x :: xs).length ∧ r.getD 0 0 = 1 ∧
    (∀ i, i + 1 < (x :: xs).length →
      ((x :: xs).getD (i + 1) 0 ≠ (x :: xs).getD i 0 → r.getD (i + 1) 0 = r.getD i 0 + 1) ∧
      ((x :: xs).getD (i + 1) 0 = (x :: xs).getD i 0 → r.getD (i + 1) 0 = r.getD i 0)) ∧
    (∀ i j, i ≤ j → j < r.length → r.getD i 0 ≤ r.getD j 0) := by
  have hr : count_changes.go 1 x xs = r := by
    simpa [count_changes] using h
  subst hr
  have hstep := cc_go_step 1 x xs
  refine ⟨by simp [cc_go_length], cc_go_head 1 x xs, ?_, ?_⟩
  · intro i hi
    have hi2 : i + 1 < xs.length + 1 := by simpa using hi
    constructor
    · intro hne
      have := hstep i hi2
      rw [if_pos (by simpa [List.getD_cons_succ] using hne)] at this
      exact this
    · intro heq
      have := hstep i hi2
      rw [if_neg (by simpa [List.getD_cons_succ] using heq)] at this
      simpa using this
  · refine getD_mono_of_adjacent _ ?_
    intro k hk
    have hk2 : k + 1 < xs.length + 1 := by
      simpa [cc_go_length] using hk
    have := hstep k hk2
    rw [this]
    split <;> omega

/-- Witness for `count_changes_spec` at the concrete sequence
`[5, 5, 7, 7, 5]`, whose transform is `[1, 1, 2, 2, 3]`. -/
theorem count_changes_spec_witness :
    ([1, 1, 2, 2, 3] : List Int).getD 0 0 = 1 ∧
    ([1, 1, 2, 2, 3] : List Int).length = ([5, 5, 7, 7, 5] : List Int).length :=
  ⟨(count_changes_spec 5 [5, 7, 7, 5] [1, 1, 2, 2, 3] (by decide)).2.1,
    (count_changes_spec 5 [5, 7, 7, 5] [1, 1, 2, 2, 3] (by decide)).1⟩

/-- The per-row DCIR value: `-1.0` unless the previous row's current is
zero and this row's is not, in which case `abs(dV/dI) * 1e6` against the
previous row. -/
def dcir_val (p r : Row) : PyRat :=
  if p.current.beq 0 && !(r.current.beq 0) then
    ((r.voltage - p.voltage) / (r.current - p.current)).babs * 1000000
  else -1

lemma dcir_go_cons (p r : Row) (rs : List Row) :
    dcir_column.go p (r :: rs) = dcir_val p r :: dcir_column.go r rs := rfl

lemma dcir_go_length (p : Row) (l : List Row) : (dcir_column.go p l).length = l.length := by
  induction l generalizing p with
  | nil => rfl
  | cons r rs ih => simp [dcir_go_cons, ih]

lemma dcir_go_getD (p : Row) (l : List Row) :
    ∀ i, i < l.length →
      (dcir_column.go p l).getD i (-1) = dcir_val ((p :: l).getD i row0) (l.getD i row0) := by
  induction l generalizing p with
  | nil => intro i hi; simp at hi
  | cons r rs ih =>
    intro i hi
    cases i with
    | zero => rw [dcir_go_cons]; rfl
    | succ k =>
      have hk : k < rs.length := by simpa using hi
      rw [dcir_go_cons, List.getD_cons_succ, List.getD_cons_succ, List.getD_cons_succ]
      exact ih r k hk

lemma to_df_single_dcir (rb : Nat) (recs : List (List Nat)) (rows : List Row) (dc : List PyRat)
    (h : to_df_single rb recs = some (rows, dc)) : dc = dcir_column rows := by
  unfold to_df_single at h
  split at h
  · cases h
  · simp only [Option.some.injEq, Prod.mk.injEq] at h
    rw [← h.1, ← h.2]

/-- Claim C10: in the single-stream decode, the derived `DCIR(mOhm)`
column is `abs(dV/dI) * 1e6` against the immediately preceding row
exactly where the previous current is zero and the current row's is not,
and the sentinel `-1.0` everywhere else, the first row included. -/
theorem dcir_column_spec (rb : Nat) (recs : List (List Nat)) (rows : List Row) (dc : List PyRat)
    (h : to_df_single rb recs = some (rows, dc)) :
    dc.length = rows.length ∧
    (rows ≠ [] → dc.getD 0 (-1) = -1) ∧
    ∀ i, i + 1 < rows.length →
      dc.getD (i + 1) (-1) =
        (if ((rows.getD i row0).current.beq 0 && !((rows.getD (i + 1) row0).current.beq 0)) = true
        then (((rows.getD (i + 1) row0).voltage - (rows.getD i row0).voltage) /
          ((rows.getD (i + 1) row0).current - (rows.getD i row0).current)).babs * 1000000
        else -1) := by
  have hdc := to_df_single_dcir rb recs rows dc h
  subst hdc
  refine ⟨?_, ?_, ?_⟩
  · cases rows with
    | nil => rfl
    | cons r rs => simp [dcir_column, dcir_go_length]
  · intro hne
    cases rows with
    | nil => exact absurd rfl hne
    | cons r rs => simp [dcir_column]
  · intro i hi
    cases rows with
    | nil => simp at hi
    | cons r rs =>
      have hk : i < rs.length := by simpa using hi
      have := dcir_go_getD r rs i hk
      simp only [dcir_column, List.getD_cons_succ]
      rw [this]
      simp only [dcir_val, List.getD_cons_succ]

/-- Concrete single-stream record (index 1, cycle byte 0, step 1, status
`Rest`, 10 s, 3.5 V, raw current 1000 at range 10, charge-capacity
counter 3600000, 2024-01-01). -/
def recOk : List Nat := mkRec 1 0 1 4 10000 35000 1000 3600000 0 0 0 2024 1 1 0 0 0 10

set_option maxRecDepth 4000 in
/-- Witness for `dcir_column_spec`: decoding the one-record stream
`[recOk]` succeeds and its DCIR column is the sentinel `[-1.0]`. -/
theorem dcir_column_spec_witness :
    ((to_df_single 0 [recOk]).getD ([], [])).2.getD 0 (-1) = -1 ∧
    ((to_df_single 0 [recOk]).getD ([], [])).2.length =
      ((to_df_single 0 [recOk]).getD ([], [])).1.length := by
  have h : to_df_single 0 [recOk] =
      some (((to_df_single 0 [recOk]).getD ([], [])).1,
        ((to_df_single 0 [recOk]).getD ([], [])).2) := by decide
  have spec := dcir_column_spec 0 [recOk] _ _ h
  exact ⟨spec.2.1 (by decide), spec.1⟩

/-- The ten data columns of a row, `Validated` excluded. -/
structure RowData where
  index : Int
  cycle : Int
  step : Int
  status : String
  time : PyRat
  voltage : PyRat
  current : PyRat
  capacity : PyRat
  energy : PyRat
  timestamp : PyRat
deriving DecidableEq

/-- Projection of a row to everything but its `Validated` flag. -/
def strip_validated (r : Row) : RowData :=
  ⟨r.index, r.cycle, r.step, r.status, r.time, r.voltage, r.current, r.capacity, r.energy,
    r.timestamp⟩

lemma vt_go_strip (p : Row) (l : List Row) :
    (validate_timegap.go p l).map strip_validated = l.map strip_validated := by
  induction l generalizing p with
  | nil => rfl
  | cons r rs ih =>
    simp only [validate_timegap.go, List.map_cons, ih]
    congr 1
    split <;> rfl

lemma validate_timegap_strip (df : List Row) :
    (validate_timegap df).map strip_validated = df.map strip_validated := by
  cases df with
  | nil => rfl
  | cons r rs => simp [validate_timegap, vt_go_strip]

lemma rest_rule_id (df : List Row) : rest_rule df = df := by
  simp [rest_rule, pandas_int_eq_str]

lemma rest_rule_strip (df : List Row) :
    (rest_rule df).map strip_validated = df.map strip_validated := by
  rw [rest_rule_id]

/-- Claim C9: both validation profiles change nothing but the `Validated`
flag: the frame returned by `validate_timegap`, by `validator_fab`, and
the frame state `main_validator` leaves behind all agree with the input
on every other column of every row (in particular the row count and the
column set are unchanged; the helper columns `validate_timegap` adds are
dropped before it returns). -/
theorem validators_touch_only_validated (df : List Row) :
    (validate_timegap df).map strip_validated = df.map strip_validated ∧
    ((validator_fab df).1).map strip_validated = df.map strip_validated ∧
    (main_validator_df df).map strip_validated = df.map strip_validated := by
  refine ⟨validate_timegap_strip df, ?_, ?_⟩
  · simp only [validator_fab]
    split_ifs <;>
      simp [rest_rule_strip, validate_timegap_strip]
  · simp only [main_validator_df]
    rw [rest_rule_strip, validate_timegap_strip]

lemma vt_go_length (p : Row) (l : List Row) : (validate_timegap.go p l).length = l.length := by
  induction l generalizing p with
  | nil => rfl
  | cons r rs ih => simp [validate_timegap.go, ih]

lemma vt_go_getD (p : Row) (l : List Row) :
    ∀ i, i < l.length →
      (validate_timegap.go p l).getD i row0 =
        (if tg_cond ((p :: l).getD i row0) (l.getD i row0) then
          { l.getD i row0 with validated := true }
        else l.getD i row0) := by
  induction l generalizing p with
  | nil => intro i hi; simp at hi
  | cons r rs ih =>
    intro i hi
    cases i with
    | zero => simp [validate_timegap.go]
    | succ k =>
      have hk : k < rs.length := by simpa using hi
      simpa [validate_timegap.go, List.getD_cons_succ] using ih r k hk

/-- Claim C1 (amended): the timestamp-continuity pre-pass leaves the
first row alone and, on every later row, leaves the row unchanged unless
the elapsed-time delta and the timestamp delta disagree by more than 5
seconds while the step is unchanged and the elapsed time non-zero, in
which case it sets `Validated` to `True` (the source runs
`df.loc[cond, "Validated"] = True`: it re-validates the rows at a
power-interruption discontinuity so that the later blanket check ignores
them; no other row's flag is changed). -/
theorem validate_timegap_spec (df : List Row) :
    (validate_timegap df).length = df.length ∧
    (validate_timegap df).getD 0 row0 = df.getD 0 row0 ∧
    ∀ i, i + 1 < df.length →
      (validate_timegap df).getD (i + 1) row0 =
        (if tg_cond (df.getD i row0) (df.getD (i + 1) row0) then
          { df.getD (i + 1) row0 with validated := true }
        else df.getD (i + 1) row0) := by
  cases df with
  | nil => exact ⟨rfl, rfl, by intro i hi; simp at hi⟩
  | cons r rs =>
    refine ⟨by simp [validate_timegap, vt_go_length], by simp [validate_timegap], ?_⟩
    intro i hi
    have hk : i < rs.length := by simpa using hi
    simpa [validate_timegap, List.getD_cons_succ] using vt_go_getD r rs i hk

/-- First row of the timegap counterexample (step 2, 10 s, wall clock
1000 s). -/
def tgA : Row := ⟨1, 1, 2, "Rest", 10, ⟨35, 10⟩, 0, 0, 0, 1000, true⟩

/-- Second row: elapsed time advanced 10 s but the timestamp jumped 630 s
(10 minutes ahead of what `Time` implies), same step, non-zero time. -/
def tgB : Row := ⟨2, 1, 2, "Rest", 20, ⟨35, 10⟩, 0, 0, 0, 1630, true⟩

/-- Counterexample to claim C1 as stated: the row at the 10-minute
timestamp discontinuity satisfies the pre-pass condition, yet after
`validate_timegap` its `Validated` flag is `True`, not the claimed
`False` (the source assigns `True` on the flagged rows). -/
theorem validate_timegap_cex :
    tg_cond tgA tgB = true ∧
    ((validate_timegap [tgA, tgB]).getD 1 row0).validated = true ∧
    ((validate_timegap [tgA, tgB]).getD 0 row0).validated = true := by decide

/-- A `Rest`-status row with non-zero current (0.5 A) and non-zero
elapsed time — the combination claim C2 says must be invalidated. -/
def restRow : Row := ⟨1, 1, 1, "Rest", 10, ⟨35, 10⟩, ⟨1, 2⟩, 0, 0, 1000, true⟩

/-- Claim C2 (code bug): the rest-consistency rule of both profiles never
fires on such a row — the source compares the integer `Step` column with
the string `"Rest"` (elementwise `False` in pandas) and additionally
requires `Current(A) == 0` instead of `!= 0` — so the physically
impossible `Rest`-with-current row keeps `Validated = True` through
`rest_rule`, `validator_fab` and `main_validator`. -/
theorem rest_rule_never_fires :
    restRow.status = "Rest" ∧ restRow.current.beq 0 = false ∧ restRow.time.beq 0 = false ∧
    rest_rule [restRow] = [restRow] ∧
    (validator_fab [restRow]).1 = [restRow] ∧
    main_validator_df [restRow] = [restRow] ∧
    ((validator_fab [restRow]).1.getD 0 row0).validated = true := by decide

/-- A row passing every check of the basic profile (index, cycle and
step all 1, a true rest with zero current). -/
def passRow : Row := ⟨1, 1, 1, "Rest", 10, ⟨35, 10⟩, 0, 0, 0, 1000, true⟩

/-- Claim C6 (code bug): on a frame that passes every check,
`validator_fab` falls off the end of the function body and returns
Python `None` (modelled `none`), not the `True` its docstring and the
spec promise; the boolean verdict exists only on the failing paths. -/
theorem validator_fab_returns_none :
    validator_fab [passRow] = ([passRow], none) ∧
    (validator_fab [passRow]).2 ≠ some true ∧
    (validator_fab [passRow]).2 ≠ some false := by decide

/-- Concrete single-stream record whose decoded voltage is 1.0 V (raw
30000? no: raw 10000 / 10000), below the 1.5 V pre-check threshold; all
other fields valid. -/
def recLow : List Nat := mkRec 1 0 1 4 10000 10000 1000 0 0 0 0 2024 1 1 0 0 0 10

set_option maxRecDepth 4000 in
/-- Counterexample to claim C3 as stated: decoding the one-record stream
`[recLow]` yields a sequence that does contain a row with voltage below
1.5 V — the pre-check does not reject the record, it only stores `False`
in its `Validated` flag. -/
theorem low_voltage_row_kept_cex :
    ((to_df_single 0 [recLow]).map fun p => p.1.map fun r => (r.validated, r.voltage.blt (3 / 2)))
      = some [(false, true)] := by decide

lemma byte_to_list_validated (bs : List Nat) (r : Row) (h : byte_to_list bs = some r) :
    r.validated = single_validator r := by
  simp only [byte_to_list] at h
  split at h
  · split at h
    · injection h with h2
      rw [← h2]
      rfl
    · cases h
  · cases h

/-- Claim C3 (amended): a candidate record with non-positive index,
non-positive cycle, non-positive step, or voltage below 1.5 V is NOT
rejected: `byte_to_list` stores the `single_validator` verdict in the
row's `Validated` flag (`False` exactly on those records) and the record
still enters the collected output sequence. -/
theorem single_validator_marks_not_rejects (rb : Nat) (bs : List Nat) (r : Row)
    (h : byte_to_list bs = some r) (hmk : bs.getD rb 0 = 0x55) (hv : valid_rec bs = true) :
    (r.validated = false ↔
      (r.index < 1 ∨ r.cycle < 1 ∨ r.step < 1 ∨ r.voltage.blt (3 / 2) = true)) ∧
    decode_output rb [bs] = some [r] := by
  constructor
  · rw [byte_to_list_validated bs r h]
    unfold single_validator
    split
    · rename_i hc
      simpa using hc
    · rename_i hc
      simpa using hc
  · have hmk2 : bs[rb]?.getD 0 = 85 := by simpa [List.getD] using hmk
    simp [decode_output, hmk2, hv, h]

set_option maxRecDepth 4000 in
/-- Witness for `single_validator_marks_not_rejects` at `recLow`: the
decoded row is flagged `Validated = False` yet is collected. -/
theorem single_validator_marks_not_rejects_witness :
    ((byte_to_list recLow).getD row0).validated = false ∧
    decode_output 0 [recLow] = some [(byte_to_list recLow).getD row0] := by
  have h : byte_to_list recLow = some ((byte_to_list recLow).getD row0) := by decide
  have spec := single_validator_marks_not_rejects 0 recLow _ h (by decide) (by decide)
  exact ⟨spec.1.mpr (by decide), spec.2⟩

/-- Concrete single-stream record with range field `-1` (raw bytes
`FF FF FF FF`) and raw current `100000`. -/
def recR1 : List Nat := mkRec 1 0 1 4 10000 35000 100000 0 0 0 0 2024 1 1 0 0 0 (2 ^ 32 - 1)

set_option maxRecDepth 4000 in
/-- Counterexample to claim C4 as stated: a record with range `-1` and
raw current `100000` decodes to 0.001 A, not 1.0 A — the multiplier for
range `-1` is 1e-5 and the scaled value is further divided by 1000. -/
theorem range_neg1_current_cex :
    ((byte_to_list recR1).map fun r => (r.current.beq 1, r.current.beq (1 / 1000))) =
      some (false, true) := by decide

/-- Claim C4 (amended): for every entry of the range-to-multiplier table,
a decoded record carries current `raw * multiplier / 1000` amperes; in
particular range `-1` with raw current `100000` gives
`100000 * 1e-5 / 1000 = 0.001` A (see the witness), not 1.0 A. -/
theorem byte_to_list_current_scaling (bs : List Nat) (r : Row) (mult : PyRat)
    (h : byte_to_list bs = some r)
    (hm : multiplier_dict (toSigned 4 (readLE bs 82 4)) = some mult) :
    r.current = PyRat.ofInt (toSigned 4 (readLE bs 35 4)) * mult / 1000 := by
  simp only [byte_to_list] at h
  split at h
  · rename_i st mlt heq1 heq2
    rw [hm] at heq2
    injection heq2 with hmm
    subst hmm
    split at h
    · injection h with h2
      rw [← h2]
    · cases h
  · cases h

set_option maxRecDepth 4000 in
/-- Witness for `byte_to_list_current_scaling` at `recR1`: the table
entry for range `-1` is 1e-5 and the decoded current is numerically
0.001 A. -/
theorem byte_to_list_current_scaling_witness :
    multiplier_dict (-1) = some (1 / 100000) ∧
    ((byte_to_list recR1).getD row0).current =
      PyRat.ofInt (toSigned 4 (readLE recR1 35 4)) * (1 / 100000) / 1000 ∧
    ((byte_to_list recR1).getD row0).current.beq (1 / 1000) = true := by
  have h : byte_to_list recR1 = some ((byte_to_list recR1).getD row0) := by decide
  exact ⟨by decide,
    byte_to_list_current_scaling recR1 ((byte_to_list recR1).getD row0) (1 / 100000) h
      (by decide), by decide⟩

/-- Default signature row for `List.getD` (bounds make it irrelevant). -/
def sig0 : StepSig := ⟨"", 0, 0, 0, 0, 0⟩

lemma zipWith_all_getD (f : StepSig → StepSig → Bool) :
    ∀ (l1 l2 : List StepSig), l1.length = l2.length →
      (((List.zipWith f l1 l2).all fun b => b = true) = true ↔
        ∀ i, i < l1.length → f (l1.getD i sig0) (l2.getD i sig0) = true) := by
  intro l1
  induction l1 with
  | nil => intro l2 h; simp
  | cons x xs ih =>
    intro l2 h
    cases l2 with
    | nil => simp at h
    | cons y ys =>
      have hlen : xs.length = ys.length := by simpa using h
      simp only [List.zipWith_cons_cons, List.all_cons, Bool.and_eq_true, decide_eq_true_eq]
      rw [ih ys hlen]
      constructor
      · rintro ⟨h1, h2⟩ i hi
        cases i with
        | zero => simpa using h1
        | succ k => simpa [List.getD_cons_succ] using h2 k (by simpa using hi)
      · intro hall
        exact ⟨by simpa using hall 0 (by simp),
          fun k hk => by simpa [List.getD_cons_succ] using hall (k + 1) (by simpa using hk)⟩

/-- Two-step signature: a 10 s rest then a CC charge step at 4.20 V. -/
def sigA : List StepSig := [⟨"Rest", 0, 0, 10, 0, 0⟩, ⟨"CC_Chg", ⟨420, 100⟩, 2, 0, ⟨1, 10⟩, 0⟩]

/-- The same protocol with the charge voltage moved by 0.04 to 4.24 V. -/
def sigB : List StepSig := [⟨"Rest", 0, 0, 10, 0, 0⟩, ⟨"CC_Chg", ⟨424, 100⟩, 2, 0, ⟨1, 10⟩, 0⟩]

/-- The same protocol with the charge voltage moved by 0.06 to 4.26 V. -/
def sigC : List StepSig := [⟨"Rest", 0, 0, 10, 0, 0⟩, ⟨"CC_Chg", ⟨426, 100⟩, 2, 0, ⟨1, 10⟩, 0⟩]

/-- Claim C5 (amended): the pairwise matcher `df_diff` declares two cycle
signatures recipe-equivalent exactly when their status sequences are
equal, their rest-duration sequences are numerically equal, and every
corresponding voltage/current/cutoff-current/cutoff-voltage pair has
absolute values within 0.05 of each other (`sig_close`; the source
compares `abs(df1[c]) - abs(df2[c])`, so only magnitudes are compared);
two signatures identical except one voltage set-point moved by 0.04
match, and moved by 0.06 do not.  The recipe *grouping* built on top of
the matcher merges consecutive matching cycles, so cycles of one recipe
need not pairwise satisfy the tolerance (see the counterexample). -/
theorem df_diff_spec :
    (∀ d1 d2 : List StepSig,
      df_diff d1 d2 = 1 ↔
        (d1.map (·.status) = d2.map (·.status) ∧
          (∀ i, i < d1.length →
            ((d1.getD i sig0).rest_time.beq (d2.getD i sig0).rest_time) = true) ∧
          ∀ i, i < d1.length → sig_close (d1.getD i sig0) (d2.getD i sig0) = true)) ∧
    df_diff sigA sigB = 1 ∧ df_diff sigA sigC = -1 := by
  refine ⟨?_, by decide, by decide⟩
  intro d1 d2
  simp only [df_diff]
  split_ifs with h1 h2 h3
  · constructor
    · intro h; cases h
    · rintro ⟨hst, _, _⟩; exact absurd hst h1
  · have hst : d1.map (·.status) = d2.map (·.status) := not_not.mp h1
    have hlen : d1.length = d2.length := by
      have := congrArg List.length hst
      simpa using this
    constructor
    · intro h; cases h
    · rintro ⟨_, hrest, _⟩
      have := (zipWith_all_getD (fun a b => a.rest_time.beq b.rest_time) d1 d2 hlen).mpr hrest
      rw [this] at h2
      cases h2
  · have hst : d1.map (·.status) = d2.map (·.status) := not_not.mp h1
    have hlen : d1.length = d2.length := by
      have := congrArg List.length hst
      simpa using this
    have hrest : ((List.zipWith (fun a b => a.rest_time.beq b.rest_time) d1 d2).all
        fun b => b = true) = true := by
      cases hb : ((List.zipWith (fun a b => a.rest_time.beq b.rest_time) d1 d2).all
        fun b => b = true) with
      | false => exact absurd hb h2
      | true => rfl
    constructor
    · intro _
      exact ⟨hst, (zipWith_all_getD _ d1 d2 hlen).mp hrest,
        (zipWith_all_getD sig_close d1 d2 hlen).mp h3⟩
    · intro _; rfl
  · have hst : d1.map (·.status) = d2.map (·.status) := not_not.mp h1
    have hlen : d1.length = d2.length := by
      have := congrArg List.length hst
      simpa using this
    constructor
    · intro h; cases h
    · rintro ⟨_, _, hclose⟩
      exact absurd ((zipWith_all_getD sig_close d1 d2 hlen).mpr hclose) h3

/-- One-step signature at the given charge voltage. -/
def sigv (v : PyRat) : List StepSig := [⟨"CC_Chg", v, 1, 0, 0, 0⟩]

/-- Counterexample to claim C5 as stated: with the three cycle signatures
`4.2 V`, `-4.2 V`, `9.9 V`, cycles 1 and 2 land in the same recipe group
(the matcher compares absolute voltages, so they match consecutively),
yet their voltage set-points differ by 8.4, far above 0.05 — the
grouping is *not* equivalent to pairwise closeness of the signed
fields. -/
theorem recipe_group_tolerance_cex :
    same_recipe [sigv ⟨42, 10⟩, sigv ⟨-42, 10⟩, sigv ⟨99, 10⟩] 1 2 = true ∧
    ((sigv ⟨42, 10⟩).getD 0 sig0).voltage.toRat -
      ((sigv ⟨-42, 10⟩).getD 0 sig0).voltage.toRat = 42 / 5 ∧
    ¬ (|((sigv ⟨42, 10⟩).getD 0 sig0).voltage.toRat -
      ((sigv ⟨-42, 10⟩).getD 0 sig0).voltage.toRat| ≤ 1 / 20) := by
  refine ⟨by decide, ?_, ?_⟩
  · simp [sigv, PyRat.toRat]
    norm_num
  · simp [sigv, PyRat.toRat]
    have h84 : (42 : ℚ) / 10 - -42 / 10 = 42 / 5 := by norm_num
    rw [h84, abs_of_nonneg (by norm_num : (0 : ℚ) ≤ 42 / 5)]
    norm_num

lemma diff_go_length (p : Option PyRat) (l : List (Option PyRat)) :
    (diff_col.go p l).length = l.length := by
  induction l generalizing p with
  | nil => rfl
  | cons y ys ih => simp [diff_col.go, ih]

lemma diff_col_length (c : List (Option PyRat)) : (diff_col c).length = c.length := by
  cases c with
  | nil => rfl
  | cons x xs => simp [diff_col, diff_go_length]

lemma shift_col_length (c : List (Option PyRat)) : (shift_col c).length = c.length := by
  cases c with
  | nil => rfl
  | cons x xs => simp [shift_col]

lemma ffill_go_length (last : Option PyRat) (c : List (Option PyRat)) :
    (ffill_col.go last c).length = c.length := by
  induction c generalizing last with
  | nil => rfl
  | cons x xs ih => cases x <;> simp [ffill_col.go, ih]

lemma ffill_col_length (c : List (Option PyRat)) : (ffill_col c).length = c.length :=
  ffill_go_length none c

lemma cumsum_bool_go_length (acc : Nat) (l : List Bool) :
    (cumsum_bool.go acc l).length = l.length := by
  induction l generalizing acc with
  | nil => rfl
  | cons b bs ih => simp [cumsum_bool.go, ih]

lemma cumsum_bool_length (l : List Bool) : (cumsum_bool l).length = l.length :=
  cumsum_bool_go_length 0 l

lemma cumsum_by_key_go_length (prev : Option Nat) (acc : PyRat) (ks : List (Option Nat))
    (xs : List (Option PyRat)) :
    (cumsum_by_key.go prev acc ks xs).length = min ks.length xs.length := by
  induction ks generalizing prev acc xs with
  | nil => simp [cumsum_by_key.go]
  | cons k ks ih =>
    cases xs with
    | nil => simp [cumsum_by_key.go]
    | cons x xs =>
      cases k with
      | none => simp [cumsum_by_key.go, ih]; omega
      | some kv => cases x <;> simp [cumsum_by_key.go, ih] <;> omega

lemma cumsum_by_key_length (ks : List (Option Nat)) (xs : List (Option PyRat)) :
    (cumsum_by_key ks xs).length = min ks.length xs.length :=
  cumsum_by_key_go_length none 0 ks xs

lemma where_col_length (c : List (Option PyRat)) (m : List Bool) (o : List (Option PyRat)) :
    (where_col c m o).length = min c.length (min m.length o.length) := by
  induction c generalizing m o with
  | nil => simp [where_col]
  | cons x xs ih =>
    cases m with
    | nil => simp [where_col]
    | cons b bs =>
      cases o with
      | nil => simp [where_col]
      | cons y ys => simp [where_col, ih]; omega

lemma interp_inside_length (steps times : List (Option PyRat)) :
    (interp_inside steps times).length = times.length := by
  simp [interp_inside]

lemma interp_default_length (c : List (Option PyRat)) :
    (interp_default c).length = c.length := by
  simp [interp_default]

lemma getD_true_of_all (m : List Bool) (hm : ∀ b ∈ m, b = true) (k : Nat)
    (hk : k < m.length) : m.getD k false = true := by
  rw [List.getD_eq_getElem m false hk]
  exact hm _ (List.getElem_mem hk)

lemma where_col_keep (c : List (Option PyRat)) (m : List Bool) (o : List (Option PyRat))
    (hm : ∀ b ∈ m, b = true) (h1 : c.length ≤ m.length) (h2 : c.length ≤ o.length) :
    where_col c m o = c := by
  induction c generalizing m o with
  | nil => cases m <;> cases o <;> rfl
  | cons x xs ih =>
    cases m with
    | nil => simp at h1
    | cons b bs =>
      cases o with
      | nil => simp at h2
      | cons y ys =>
        have hb : b = true := hm b (by simp)
        simp only [where_col, hb, if_true]
        rw [ih bs ys (fun v hv => hm v (by simp [hv])) (by simpa using h1) (by simpa using h2)]

lemma assign_positions_go_nil (v : PyRat) (i : Int) (c : List (Option PyRat)) :
    assign_positions.go [] v i c = c := by
  induction c generalizing i with
  | nil => rfl
  | cons x xs ih => simp [assign_positions.go, ih]

lemma assign_positions_nil (v : PyRat) (c : List (Option PyRat)) :
    assign_positions [] v c = c :=
  assign_positions_go_nil v 0 c

lemma interp_inside_keep (steps times : List (Option PyRat))
    (hlen : steps.length = times.length)
    (hs : ∀ x ∈ steps, x.isSome = true) (ht : ∀ x ∈ times, x.isSome = true) :
    interp_inside steps times = times := by
  apply List.ext_getElem (by simp [interp_inside_length])
  intro i h1 h2
  simp only [interp_inside, List.getElem_map, List.getElem_range]
  have hsl : i < steps.length := by rw [hlen]; exact h2
  have hsd : steps.getD i none = steps[i] := List.getD_eq_getElem steps none hsl
  have htd : times.getD i none = times[i] := List.getD_eq_getElem times none h2
  obtain ⟨key, hkey⟩ := Option.isSome_iff_exists.mp (hs (steps[i]) (List.getElem_mem hsl))
  obtain ⟨v, hv⟩ := Option.isSome_iff_exists.mp (ht (times[i]) (List.getElem_mem h2))
  rw [hsd, htd, hkey, hv]

lemma interp_default_keep (col : List (Option PyRat)) (hc : ∀ x ∈ col, x.isSome = true) :
    interp_default col = col := by
  apply List.ext_getElem (by simp [interp_default_length])
  intro i h1 h2
  simp only [interp_default, List.getElem_map, List.getElem_range]
  have hd : col.getD i none = col[i] := List.getD_eq_getElem col none h2
  obtain ⟨v, hv⟩ := Option.isSome_iff_exists.mp (hc (col[i]) (List.getElem_mem h2))
  rw [hd, hv]

lemma ffill_go_keep (last : Option PyRat) (c : List (Option PyRat))
    (hc : ∀ x ∈ c, x.isSome = true) : ffill_col.go last c = c := by
  induction c generalizing last with
  | nil => rfl
  | cons x xs ih =>
    obtain ⟨v, hv⟩ := Option.isSome_iff_exists.mp (hc x (by simp))
    subst hv
    simp [ffill_col.go, ih (some v) fun y hy => hc y (by simp [hy])]

lemma ffill_str_go_keep (last : Option String) (c : List (Option String))
    (hc : ∀ x ∈ c, x.isSome = true) : ffill_str.go last c = c := by
  induction c generalizing last with
  | nil => rfl
  | cons x xs ih =>
    obtain ⟨v, hv⟩ := Option.isSome_iff_exists.mp (hc x (by simp))
    subst hv
    simp [ffill_str.go, ih (some v) fun y hy => hc y (by simp [hy])]

lemma ffill_str_keep (c : List (Option String)) (hc : ∀ x ∈ c, x.isSome = true) :
    ffill_str c = c :=
  ffill_str_go_keep none c hc

lemma set_time_col_self (l : List FabRow) : set_time_col l (l.map (·.time)) = l := by
  induction l with
  | nil => rfl
  | cons r rs ih => simp [set_time_col, List.map_cons] at ih ⊢; exact ih

lemma set_ts_col_self (l : List FabRow) : set_ts_col l (l.map (·.timestamp)) = l := by
  induction l with
  | nil => rfl
  | cons r rs ih => simp [set_ts_col, List.map_cons] at ih ⊢; exact ih

lemma set_eng_col_self (l : List FabRow) : set_eng_col l (l.map (·.energy)) = l := by
  induction l with
  | nil => rfl
  | cons r rs ih => simp [set_eng_col, List.map_cons] at ih ⊢; exact ih

lemma set_cycle_col_self (l : List FabRow) : set_cycle_col l (l.map (·.cycle)) = l := by
  induction l with
  | nil => rfl
  | cons r rs ih => simp [set_cycle_col, List.map_cons] at ih ⊢; exact ih

lemma set_status_col_self (l : List FabRow) : set_status_col l (l.map (·.status)) = l := by
  induction l with
  | nil => rfl
  | cons r rs ih => simp [set_status_col, List.map_cons] at ih ⊢; exact ih

lemma set_cap_col_map (l : List FabRow) (g : FabRow → Option PyRat) :
    set_cap_col l (l.map g) = l.map fun r => { r with capacity := g r } := by
  induction l with
  | nil => rfl
  | cons r rs ih => simp [set_cap_col, List.map_cons] at ih ⊢; exact ih

lemma zipWith_map_same {α β γ δ : Type} (f : β → γ → δ) (u : α → β) (v : α → γ)
    (l : List α) : List.zipWith f (l.map u) (l.map v) = l.map fun x => f (u x) (v x) := by
  induction l with
  | nil => rfl
  | cons x xs ih => simp [ih]

lemma enum_go_snd (i : Int) (df : List FabRow) : (enum_rows.go i df).map (·.2) = df := by
  induction df generalizing i with
  | nil => rfl
  | cons r rs ih => simp [enum_rows.go, ih]

lemma enum_snd (df : List FabRow) : (enum_rows df).map (·.2) = df :=
  enum_go_snd 0 df

lemma enum_go_length (i : Int) (df : List FabRow) :
    (enum_rows.go i df).length = df.length := by
  induction df generalizing i with
  | nil => rfl
  | cons r rs ih => simp [enum_rows.go, ih]

lemma enum_go_fst_bounds (i : Int) (df : List FabRow) :
    ∀ l ∈ (enum_rows.go i df).map (·.1), i ≤ l ∧ l < i + df.length := by
  induction df generalizing i with
  | nil => simp [enum_rows.go]
  | cons r rs ih =>
    intro l hl
    have hlen : ((r :: rs).length : Int) = (rs.length : Int) + 1 := by simp
    simp only [enum_rows.go, List.map_cons, List.mem_cons] at hl
    rcases hl with h | h
    · subst h
      omega
    · have hb := ih (i + 1) l h
      omega

/-- The only cell change `fabricate` makes on a fully observed,
artifact-free frame: `Capacity(Ah)` is reset to `0.0` on every row whose
elapsed time equals zero (the unconditional
`df["Capacity(Ah)"].where(df["Time"] != 0.0, 0.0)` of line 69); all
other cells are kept. -/
def zero_time_reset (r : FabRow) : FabRow :=
  { r with capacity := if time_nonzero_test r.time then r.capacity else some 0 }

lemma fab_time_pass_keep (rows : List FabRow) (trd : PyRat)
    (hstep : ∀ x ∈ rows.map (·.step), x.isSome = true)
    (htime : ∀ x ∈ rows.map (·.time), x.isSome = true) :
    fab_time_pass rows [] [] trd = rows := by
  simp only [fab_time_pass, assign_positions_nil]
  rw [interp_inside_keep (rows.map (·.step)) (rows.map (·.time)) (by simp) hstep htime]
  have hmask : ∀ b ∈ (rows.map (·.time)).map (·.isSome), b = true := by
    intro b hb
    obtain ⟨x, hx, rfl⟩ := List.mem_map.mp hb
    exact htime x hx
  have key : ∀ o : List (Option PyRat), rows.length ≤ o.length →
      set_time_col rows (where_col (rows.map (·.time)) ((rows.map (·.time)).map (·.isSome)) o)
        = rows := by
    intro o ho
    rw [where_col_keep _ _ _ hmask (by simp) (by simpa using ho), set_time_col_self]
  apply key
  simp [List.length_zipWith, ffill_col_length, shift_col_length, cumsum_by_key_length,
    cumsum_bool_length, diff_col_length]

lemma fab_ts_pass_keep (labels : List Int) (nv : List Bool) (rows : List FabRow)
    (hm : ∀ b ∈ stale_mask nv labels, b = true) (hlen : rows.length ≤ labels.length) :
    fab_ts_pass labels nv rows = rows := by
  simp only [fab_ts_pass]
  have key : ∀ o : List (Option PyRat), rows.length ≤ o.length →
      set_ts_col rows (where_col (rows.map (·.timestamp)) (stale_mask nv labels) o) = rows := by
    intro o ho
    rw [where_col_keep _ _ _ hm (by simpa [stale_mask] using hlen) (by simpa using ho),
      set_ts_col_self]
  apply key
  simp [List.length_zipWith, ffill_col_length, shift_col_length, cumsum_by_key_length,
    cumsum_bool_length, diff_col_length, stale_keys]
  omega

lemma fab_cap_pass_eq (labels : List Int) (nv : List Bool) (rows : List FabRow)
    (hm : ∀ b ∈ stale_mask nv labels, b = true) (hlen : rows.length ≤ labels.length) :
    fab_cap_pass labels nv rows = rows.map zero_time_reset := by
  simp only [fab_cap_pass]
  rw [List.map_map, zipWith_map_same]
  have key : ∀ o : List (Option PyRat), rows.length ≤ o.length →
      set_cap_col rows (where_col
        (rows.map fun r => if time_nonzero_test r.time then r.capacity else some 0)
        (stale_mask nv labels) o) = rows.map zero_time_reset := by
    intro o ho
    rw [where_col_keep _ _ _ hm (by simpa [stale_mask] using hlen) (by simpa using ho),
      set_cap_col_map]
    rfl
  apply key
  simp [List.length_zipWith, ffill_col_length, shift_col_length, cumsum_by_key_length,
    cumsum_bool_length, diff_col_length, where_col_length]

lemma fab_eng_pass_keep (labels : List Int) (nv : List Bool) (rows : List FabRow)
    (hm : ∀ b ∈ stale_mask nv labels, b = true) (hlen : rows.length ≤ labels.length) :
    fab_eng_pass labels nv rows = rows := by
  simp only [fab_eng_pass]
  have key : ∀ o : List (Option PyRat), rows.length ≤ o.length →
      set_eng_col rows (where_col (rows.map (·.energy)) (stale_mask nv labels) o) = rows := by
    intro o ho
    rw [where_col_keep _ _ _ hm (by simpa [stale_mask] using hlen) (by simpa using ho),
      set_eng_col_self]
  apply key
  simp [List.length_zipWith, ffill_col_length, shift_col_length, cumsum_by_key_length,
    cumsum_bool_length, diff_col_length, where_col_length, stale_keys]
  omega

lemma fab_cycle_pass_keep (rows : List FabRow)
    (hcyc : ∀ x ∈ rows.map (·.cycle), x.isSome = true) : fab_cycle_pass rows = rows := by
  simp only [fab_cycle_pass]
  rw [interp_default_keep _ hcyc, set_cycle_col_self]

lemma fab_status_pass_keep (rows : List FabRow)
    (hst : ∀ x ∈ rows.map (·.status), x.isSome = true) : fab_status_pass rows = rows := by
  simp only [fab_status_pass]
  rw [ffill_str_keep _ hst, set_status_col_self]

/-- Full observedness of a frame: every cell of every row holds a value
(nothing for `fabricate` to fill). -/
def fab_observed (df : List FabRow) : Prop :=
  ∀ r ∈ df, r.cycle.isSome = true ∧ r.step.isSome = true ∧ r.status.isSome = true ∧
    r.time.isSome = true ∧ r.voltage.isSome = true ∧ r.current.isSome = true ∧
    r.capacity.isSome = true ∧ r.energy.isSome = true ∧ r.timestamp.isSome = true

lemma fab_cols_keep (labels : List Int) (rows : List FabRow) (nv : List Bool) (trd : PyRat)
    (_hnv_len : nv.length = rows.length)
    (hnv : ∀ b ∈ nv, b = true)
    (hlab_len : labels.length = rows.length)
    (hlab : ∀ l ∈ labels, 0 ≤ l ∧ l.toNat < nv.length)
    (hobs : fab_observed rows) :
    fab_cols labels rows nv [] [] trd = rows.map zero_time_reset := by
  have hsm : ∀ b ∈ stale_mask nv labels, b = true := by
    intro b hb
    simp only [stale_mask, List.mem_map] at hb
    obtain ⟨l, hl, rfl⟩ := hb
    rw [if_pos (hlab l hl)]
    exact getD_true_of_all nv hnv _ (hlab l hl).2
  have hlen : rows.length ≤ labels.length := le_of_eq hlab_len.symm
  have hfield : ∀ (f : FabRow → Option PyRat), (∀ r : FabRow, ∀ hr : r ∈ rows,
      (f r).isSome = true) → ∀ x ∈ rows.map f, x.isSome = true := by
    intro f hf x hx
    obtain ⟨r, hr, rfl⟩ := List.mem_map.mp hx
    exact hf r hr
  have hstep : ∀ x ∈ rows.map (·.step), x.isSome = true :=
    hfield _ fun r hr => (hobs r hr).2.1
  have htime : ∀ x ∈ rows.map (·.time), x.isSome = true :=
    hfield _ fun r hr => (hobs r hr).2.2.2.1
  have hztr_cyc : ∀ x ∈ (rows.map zero_time_reset).map (·.cycle), x.isSome = true := by
    intro x hx
    obtain ⟨r, hr, rfl⟩ := List.mem_map.mp hx
    obtain ⟨q, hq, rfl⟩ := List.mem_map.mp hr
    exact (hobs q hq).1
  have hztr_st : ∀ x ∈ (rows.map zero_time_reset).map (·.status), x.isSome = true := by
    intro x hx
    obtain ⟨r, hr, rfl⟩ := List.mem_map.mp hx
    obtain ⟨q, hq, rfl⟩ := List.mem_map.mp hr
    exact (hobs q hq).2.2.1
  have hlen2 : (rows.map zero_time_reset).length ≤ labels.length := by
    simpa using hlen
  unfold fab_cols
  rw [fab_time_pass_keep rows trd hstep htime,
    fab_ts_pass_keep labels nv rows hsm hlen,
    fab_cap_pass_eq labels nv rows hsm hlen,
    fab_eng_pass_keep labels nv (rows.map zero_time_reset) hsm hlen2,
    fab_cycle_pass_keep _ hztr_cyc,
    fab_status_pass_keep _ hztr_st]

/-- Claim C7 (amended): on a frame in which every cell is observed and
that has no decoder-substitution artifact rows (the computed sets
`s1`/`s2` are empty), `fabricate` changes exactly one thing: the
`Capacity(Ah)` cell of every zero-elapsed-time row is reset to `0.0`
(`df["Capacity(Ah)"].where(df["Time"] != 0.0, 0.0)` runs
unconditionally); every other cell of every row is kept, so fabrication
fills gaps but also applies this zero-time capacity reset even to
observed capacities. -/
theorem fabricate_fills_gaps_only (df : List FabRow) (trd : PyRat)
    (hobs : fab_observed df)
    (htrd : fab_trd df = some trd)
    (hs1 : fab_s1 df trd = [])
    (hs2 : fab_s2 df trd = []) :
    fabricate df = some (df.map zero_time_reset) := by
  unfold fabricate
  rw [htrd]
  simp only [hs1, hs2, List.foldl_nil]
  rw [enum_snd]
  refine congrArg some ?_
  apply fab_cols_keep
  · simp
  · intro b hb
    obtain ⟨r, hr, rfl⟩ := List.mem_map.mp hb
    exact (hobs r hr).2.2.2.1
  · show ((enum_rows df).map (·.1)).length = df.length
    simp [enum_rows, enum_go_length]
  · intro l hl
    have hb := enum_go_fst_bounds 0 df l (by simpa [enum_rows] using hl)
    constructor
    · exact hb.1
    · have : l < (df.length : Int) := by
        have := hb.2
        omega
      simp only [List.length_map]
      omega
  · exact hobs

/-- A fully observed step-start row: elapsed time 0 with an observed
(non-zero) capacity of 5. -/
def fabRowA : FabRow :=
  ⟨some 1, some 1, some "Rest", some 0, some 3, some 0, some 5, some 1, some 100⟩

/-- The fully observed second row, one modal delta (2 s) later. -/
def fabRowB : FabRow :=
  ⟨some 1, some 1, some "Rest", some 2, some 3, some 0, some 7, some 1, some 102⟩

/-- Counterexample to claim C7 as stated: the frame
`[fabRowA, fabRowB]` is complete (every cell observed) and has no
artifact rows (the computed `s1` and `s2` are both empty), yet
`fabricate` is not a no-op: the observed capacity 5 of the
zero-elapsed-time row is overwritten with 0.0 (while the time column,
shown last, is untouched). -/
theorem fabricate_zero_time_capacity_cex :
    fabRowA.capacity = some 5 ∧
    fab_trd [fabRowA, fabRowB] = some 2 ∧
    fab_s1 [fabRowA, fabRowB] 2 = [] ∧ fab_s2 [fabRowA, fabRowB] 2 = [] ∧
    (fabricate [fabRowA, fabRowB]).map (fun l => l.map (·.capacity)) =
      some [some 0, some 7] ∧
    (fabricate [fabRowA, fabRowB]).map (fun l => l.map (·.time)) =
      some [some 0, some 2] := by decide

/-- Witness for `fabricate_fills_gaps_only` at the concrete two-row
frame. -/
theorem fabricate_fills_gaps_only_witness :
    fabricate [fabRowA, fabRowB] = some ([fabRowA, fabRowB].map zero_time_reset) :=
  fabricate_fills_gaps_only [fabRowA, fabRowB] 2 (by unfold fab_observed; decide) (by decide)
    (by decide) (by decide)
